import Mathlib

/-!
Verification of the per-tenant trace ingestion engine of a distributed
tracing backend (append-only WAL blocks and the ingester instance).

The block-level definitions are shallow embeddings of
src/tempodb/encoding/v2/append_block.go.  Pieces of the repository that
are referenced by that file but whose source is not available (the
backend block metadata, the WAL replay iterator, the object decoder, the
google/uuid library, and the ingester instance itself, of which only the
tests are available) are modelled from the specification; every such
definition carries a doc comment starting with `Modelled from the spec:`.

Times are unix-epoch seconds.  Wall-clock instants and durations are
`Int`; record timestamps are `Nat` values in the `uint32` range, and the
Go `uint32(...)` conversion of an `int64` is made explicit as `u32`.
-/

namespace Tempo

/-- Serialized identifiers and payloads are byte strings, embedded as lists
of bytes. -/
abbrev Bytes := List Nat

/-- The Go `uint32(x)` conversion of an `int64` unix timestamp: reduction
modulo `2^32`. -/
def u32 (i : Int) : Nat := (i % (4294967296 : Int)).toNat

/-- `maxDataEncodingLength` (src/tempodb/encoding/v2/append_block.go:23). -/
def maxDataEncodingLength : Nat := 32

/-- Modelled from the spec: `VersionString`, the literal version token of
the v2 encoding, is defined elsewhere in the repository; the spec's
canonical filename example fixes it to "v2". -/
def VersionString : List Char := "v2".toList

/-- Hexadecimal digit test, used by the UUID model. -/
def isHexDigit (c : Char) : Bool :=
  decide (48 ≤ c.toNat ∧ c.toNat ≤ 57) ||
  decide (97 ≤ c.toNat ∧ c.toNat ≤ 102) ||
  decide (65 ≤ c.toNat ∧ c.toNat ≤ 70)

/-- Canonical textual UUID shape: 36 characters drawn from hex digits and
hyphens (the hyphen positions are not constrained; only the properties the
claims rely on are modelled). -/
def isUuidString (s : List Char) : Bool :=
  decide (s.length = 36) && s.all (fun c => isHexDigit c || decide (c = '-'))

/-- Modelled from the spec: the github.com/google/uuid library is not in
the sources; a UUID is represented by its canonical textual form. -/
abbrev UUID := { s : List Char // isUuidString s = true }

/-- Modelled from the spec: `uuid.Parse`, accepting exactly the canonical
textual forms of the UUID model. -/
def uuidParse (s : List Char) : Option UUID :=
  if h : isUuidString s = true then some ⟨s, h⟩ else none

instance : DecidableEq UUID := fun a b =>
  if h : a.val = b.val then .isTrue (Subtype.ext h)
  else .isFalse fun he => h (congrArg Subtype.val he)

/-- Modelled from the spec: `backend.Encoding`; a representative subset of
the encoding tokens. -/
inductive Encoding
  | encNone
  | gzip
  | lz4M
  | snappy
  | zstd
deriving DecidableEq

/-- Textual form of an encoding token. -/
def encodingToString : Encoding → List Char
  | .encNone => "none".toList
  | .gzip => "gzip".toList
  | .lz4M => "lz4-1M".toList
  | .snappy => "snappy".toList
  | .zstd => "zstd".toList

/-- Modelled from the spec: `backend.ParseEncoding`, the inverse of
`encodingToString`, failing on unknown tokens. -/
def parseEncoding (s : List Char) : Option Encoding :=
  if s = "none".toList then some .encNone
  else if s = "gzip".toList then some .gzip
  else if s = "lz4-1M".toList then some .lz4M
  else if s = "snappy".toList then some .snappy
  else if s = "zstd".toList then some .zstd
  else none

/-- `strings.Split` on a single separator character, over `List Char`. -/
def splitOnChar (sep : Char) : List Char → List (List Char)
  | [] => [[]]
  | c :: rest =>
    if c = sep then [] :: splitOnChar sep rest
    else (c :: (splitOnChar sep rest).headI) :: (splitOnChar sep rest).tail

/-- Modelled from the spec: `backend.BlockMeta` — the metadata record of a
block (§3: block id, tenant, time window, object count, encodings). -/
structure BlockMeta where
  tenantID : List Char
  blockID : UUID
  version : List Char
  encoding : Encoding
  dataEncoding : List Char
  startTime : Int
  endTime : Int
  totalObjects : Nat
deriving DecidableEq

/-- Modelled from the spec: `backend.NewBlockMeta`.  The spec gives no
initial time window for a freshly created block; the creation instant is
used for both bounds (an empty window), and `totalObjects` starts at 0. -/
def NewBlockMeta (now : Int) (tenantID : List Char) (blockID : UUID)
    (version : List Char) (e : Encoding) (dataEncoding : List Char) : BlockMeta :=
  { tenantID := tenantID
    blockID := blockID
    version := version
    encoding := e
    dataEncoding := dataEncoding
    startTime := now
    endTime := now
    totalObjects := 0 }

/-- Modelled from the spec: `BlockMeta.ObjectAdded` — §4.2: each appended
record's `start`/`end` "update the block-wide `[start_time, end_time]`
window", and the object count grows by one.  (The min/max id tracking of
the real metadata is not needed by any claim and is elided.) -/
def ObjectAdded (m : BlockMeta) (start endSec : Nat) : BlockMeta :=
  { m with
    startTime := min m.startTime (start : Int)
    endTime := max m.endTime (endSec : Int)
    totalObjects := m.totalObjects + 1 }

/-- The mutable state of `v2AppendBlock`
(src/tempodb/encoding/v2/append_block.go:29-39): metadata, slack, the
appender's records as `(id, payload)` pairs, and the lazily opened read
file guarded by a `sync.Once` (`once` → `onceDone`, `readFile` → a handle
token).  The on-disk file and directory path are elided. -/
structure V2AppendBlock where
  meta : BlockMeta
  ingestionSlack : Int
  entries : List (Bytes × Bytes)
  onceDone : Bool
  readFile : Option Nat
deriving DecidableEq

/-- `newAppendBlock` (src lines 41-69): rejects a `dataEncoding` that
contains a colon or exceeds `maxDataEncodingLength` runes, otherwise
builds a fresh block with metadata versioned `VersionString`.  (The file
creation and data-writer construction are I/O and are elided.) -/
def newAppendBlock (now : Int) (id : UUID) (tenantID : List Char)
    (e : Encoding) (dataEncoding : List Char) (ingestionSlack : Int) :
    Option V2AppendBlock :=
  if ':' ∈ dataEncoding ∨ dataEncoding.length > maxDataEncodingLength then none
  else some
    { meta := NewBlockMeta now tenantID id VersionString e dataEncoding
      ingestionSlack := ingestionSlack
      entries := []
      onceDone := false
      readFile := none }

/-- `fullFilename` (src lines 271-284), without the directory component
(`filepath.Join` with the block's path is elided; parsing applies to the
base name). -/
def fullFilename (a : V2AppendBlock) : List Char :=
  if a.meta.version = "v0".toList then
    a.meta.blockID.val ++ ':' :: a.meta.tenantID
  else if a.meta.dataEncoding = [] then
    a.meta.blockID.val ++ ':' :: a.meta.tenantID ++ ':' :: a.meta.version
      ++ ':' :: encodingToString a.meta.encoding
  else
    a.meta.blockID.val ++ ':' :: a.meta.tenantID ++ ':' :: a.meta.version
      ++ ':' :: encodingToString a.meta.encoding ++ ':' :: a.meta.dataEncoding

/-- `ParseFilename` (src lines 323-362): split on colons; exactly 4 or 5
fields; field 0 a UUID; field 1 a nonempty tenant; field 2 the literal
version token; field 3 a known encoding; field 4 (when present) the data
encoding. -/
def ParseFilename (filename : List Char) :
    Option (UUID × List Char × List Char × Encoding × List Char) :=
  if (splitOnChar ':' filename).length = 4 ∨ (splitOnChar ':' filename).length = 5 then
    match uuidParse ((splitOnChar ':' filename).getD 0 []) with
    | none => none
    | some id =>
      if (splitOnChar ':' filename).getD 1 [] = [] then none
      else if (splitOnChar ':' filename).getD 2 [] = VersionString then
        match parseEncoding ((splitOnChar ':' filename).getD 3 []) with
        | none => none
        | some enc =>
          some (id, (splitOnChar ':' filename).getD 1 [],
            (splitOnChar ':' filename).getD 2 [], enc,
            if (splitOnChar ':' filename).length = 5 then
              (splitOnChar ':' filename).getD 4 []
            else [])
      else none
  else none

/-- `adjustTimeRangeForSlack` (src lines 299-319): the lower bound is
`now - slack - additionalStartSlack`, the upper bound `now + slack` (both
as `uint32` casts of unix seconds); `start` below the lower bound is
replaced with `now`, `end` above the upper bound is replaced with `now`,
and the returned flag records whether the warning counter was
incremented. -/
def adjustTimeRangeForSlack (now slack additionalStartSlack : Int)
    (start endSec : Nat) : Nat × Nat × Bool :=
  let startOfRange := u32 (now - slack - additionalStartSlack)
  let endOfRange := u32 (now + slack)
  let warn1 := decide (start < startOfRange)
  let start' := if start < startOfRange then u32 now else start
  let warn2 := decide (endSec > endOfRange)
  let end' := if endSec > endOfRange then u32 now else endSec
  (start', end', warn1 || warn2)

/-- `Append` (src lines 134-142): record the object in the appender, then
adjust the time range with zero additional start slack and feed it to
`ObjectAdded`.  (The appender write is modelled as always succeeding; its
I/O failure path is not exercised by any claim.) -/
def Append (now : Int) (a : V2AppendBlock) (id b : Bytes)
    (start endSec : Nat) : V2AppendBlock :=
  let a' := { a with entries := a.entries ++ [(id, b)] }
  let r := adjustTimeRangeForSlack now a.ingestionSlack 0 start endSec
  { a' with meta := ObjectAdded a'.meta r.1 r.2.1 }

/-- Error reported when the lazy open of the read file fails. -/
inductive OpenError
  | openFailed
deriving DecidableEq

/-- `file` (src lines 286-297): the `sync.Once` body opens the read file
only on the first call and only if no handle exists; the error variable is
fresh on every call, so a call after the `Once` has fired returns the
stored handle (possibly `none`) with a `none` error.  `openResult` stands
for what `os.OpenFile` would return on this call. -/
def file (openResult : Option Nat) (a : V2AppendBlock) :
    Option Nat × Option OpenError × V2AppendBlock :=
  if a.onceDone then (a.readFile, none, a)
  else
    let a' := { a with onceDone := true }
    if a.readFile = none then
      match openResult with
      | some h => (some h, none, { a' with readFile := some h })
      | none => (none, some .openFailed, a')
    else (a.readFile, none, a')

/-- Result of `ObjectDecoder.FastRange` on one record: a time range, the
`decoder.ErrUnsupported` report, or another decode failure. -/
inductive FastRangeResult
  | ok (start endSec : Nat)
  | unsupported
  | failed
deriving DecidableEq

/-- Modelled from the spec: `model.ObjectDecoder`, reduced to its
`FastRange` method (§6), which is all the WAL replay uses. -/
abbrev ObjectDecoder := Bytes → FastRangeResult

/-- Errors with which WAL replay can abort. -/
inductive ReplayError
  | unsupported
  | decodeFailed
deriving DecidableEq

/-- The per-record callback of `newAppendBlockFromFile` (src lines
100-119), embedded with the running `(blockStart, blockEnd)` window as
explicit state.  In the `ErrUnsupported` branch the source assigns
`start = end = now` but the subsequent `if err != nil` check still sees
the unmodified error and returns it, so the assignments are dead and the
callback aborts. -/
def replayCb (dec : ObjectDecoder) (now slack additionalStartSlack : Int)
    (st : Nat × Nat) (p : Bytes) : Except ReplayError (Nat × Nat) :=
  match dec p with
  | .unsupported => .error .unsupported
  | .failed => .error .decodeFailed
  | .ok s e =>
    let r := adjustTimeRangeForSlack now slack additionalStartSlack s e
    .ok (min st.1 r.1, max st.2 r.2.1)

/-- The replay fold: run the callback over the readable records in order,
aborting on the first callback error. -/
def replayFoldRange (dec : ObjectDecoder) (now slack additionalStartSlack : Int) :
    Nat × Nat → List Bytes → Except ReplayError (Nat × Nat)
  | st, [] => .ok st
  | st, p :: ps =>
    match replayCb dec now slack additionalStartSlack st p with
    | .error e => .error e
    | .ok st' => replayFoldRange dec now slack additionalStartSlack st' ps

/-- A WAL file as replay sees it: the readable `(id, payload)` records (the
successfully-read prefix) and whether a truncated trailing record follows
them. -/
structure WalFile where
  entries : List (Bytes × Bytes)
  truncatedTail : Bool
deriving DecidableEq

/-- The non-fatal warning WAL replay can report. -/
inductive ReplayWarning
  | truncated
deriving DecidableEq

/-- Fatal errors of `newAppendBlockFromFile`. -/
inductive FatalError
  | parseFilename
  | accessingFile
  | replay (e : ReplayError)
deriving DecidableEq

/-- `newAppendBlockFromFile` (src lines 73-130).  `ReplayWALAndGetRecords`
is not in the sources; modelled from the spec: it returns the records of
the successfully-read prefix, a warning when the file ends in a truncated
trailing record, and aborts with a fatal error when the callback fails
(the warning is dropped on the fatal path, as in the source's
`if err != nil` return).  `model.NewObjectDecoder` is likewise modelled as
the given decoder `dec`; `openResult` is what opening the file for reading
returns.  On success the metadata's object count and time window are
re-derived from the replayed records, starting from
`(MaxUint32, 0)`. -/
def newAppendBlockFromFile (dec : ObjectDecoder) (openResult : Option Nat)
    (now slack additionalStartSlack : Int) (filename : List Char)
    (f : WalFile) : Except FatalError (V2AppendBlock × Option ReplayWarning) :=
  match ParseFilename filename with
  | none => .error .parseFilename
  | some (blockID, tenantID, version, e, dataEncoding) =>
    match file openResult
      { meta := NewBlockMeta now tenantID blockID version e dataEncoding
        ingestionSlack := slack
        entries := []
        onceDone := false
        readFile := none } with
    | (_, some _, _) => .error .accessingFile
    | (_, none, b') =>
      match replayFoldRange dec now slack additionalStartSlack
          (4294967295, 0) (f.entries.map (fun r => r.2)) with
      | .error er => .error (.replay er)
      | .ok (bs, be) =>
        .ok
          ({ b' with
             entries := f.entries
             meta := { b'.meta with
                       totalObjects := f.entries.length
                       startTime := (bs : Int)
                       endTime := (be : Int) } },
           if f.truncatedTail then some .truncated else none)

/-- A cancellation context: only the cancelled flag is observable. -/
structure Ctx where
  cancelled : Bool
deriving DecidableEq

/-- Errors of the find path. -/
inductive FindError
  | cancelled
  | fileAccess
deriving DecidableEq

/-- `Appender.RecordsForID`: the payloads recorded for the given id, in
append order. -/
def RecordsForID (a : V2AppendBlock) (id : Bytes) : List Bytes :=
  (a.entries.filter (fun r => r.1 = id)).map (fun r => r.2)

/-- Modelled from the spec: the paged finder over the records of one id —
it honours its context's cancellation and combines all matched payloads
with the trace combiner (an associative merge, modelled as
concatenation). -/
def finderFind (ctx : Ctx) (records : List Bytes) :
    Except FindError (Option Bytes) :=
  if ctx.cancelled then .error .cancelled
  else
    match records with
    | [] => .ok none
    | r :: rs => .ok (some (rs.foldl (· ++ ·) r))

/-- `FindTraceByID` (src lines 215-249): collect the records for the id,
open the read file, return `none` when there are no records, and otherwise
run the finder — under `context.Background()`, not the caller's context,
exactly as the source does on line 234.  The caller's `ctx` is accepted
and never consulted.  (`PrepareForRead` is modelled as the identity on the
combined payload.) -/
def FindTraceByID (openResult : Option Nat) (ctx : Ctx) (a : V2AppendBlock)
    (id : Bytes) : Except FindError (Option Bytes) × V2AppendBlock :=
  let records := RecordsForID a id
  match file openResult a with
  | (_, some _, a') => (.error .fileAccess, a')
  | (_, none, a') =>
    if records = [] then (.ok none, a')
    else
      match finderFind { cancelled := false } records with
      | .error e => (.error e, a')
      | .ok bytesOpt => (.ok bytesOpt, a')

/-- Modelled from the spec: a live trace (§3) — the trace id, the
accumulated byte size, and the last-append instant.  (The batch contents
are not needed by any claim.) -/
structure LiveTrace where
  traceID : Bytes
  byteSize : Nat
  lastAppend : Int
deriving DecidableEq

/-- Modelled from the spec: the per-tenant ingester instance (§4.1; its
source `modules/ingester/instance.go` is not under the sources, only its
tests are).  Fields: the live-trace table (as a list; the fingerprint
sharding is a performance device), the poisoned-id set, the traces cut to
the current head block with their total size, the last block-cut instant,
and the per-tenant limits with the healthy-peer count (zero limits mean
unlimited). -/
structure Instance where
  traces : List LiveTrace
  tooLargeTraces : List Bytes
  headTraces : List LiveTrace
  headBytes : Nat
  lastBlockCut : Int
  maxBytesPerTrace : Nat
  maxLocalTraces : Nat
  healthyPeers : Nat
deriving DecidableEq

/-- Modelled from the spec: the limiter's per-instance local live-trace
limit (§4.4): `max_local_traces_per_user / max(1, healthy_peers())`,
rounded up. -/
def localTracesLimit (maxLocal healthy : Nat) : Nat :=
  (maxLocal + max 1 healthy - 1) / max 1 healthy

/-- Errors the push path can report. -/
inductive PushError
  | liveTracesExceeded
  | traceTooLarge (traceID : Bytes) (maxBytes reqSize : Nat)
deriving DecidableEq

/-- Lookup in the live-trace table by full trace id. -/
def findLiveTrace (ts : List LiveTrace) (id : Bytes) : Option LiveTrace :=
  ts.find? (fun t => t.traceID = id)

/-- Append a batch to an existing live trace: grow its size, refresh its
last-append instant. -/
def updateLiveTrace (ts : List LiveTrace) (id : Bytes) (sz : Nat)
    (now : Int) : List LiveTrace :=
  ts.map (fun t =>
    if t.traceID = id then
      { t with byteSize := t.byteSize + sz, lastAppend := now }
    else t)

/-- Modelled from the spec: `PushBytes` (§4.1).  A poisoned id fails with
`TraceTooLarge` in any state.  Otherwise: an existing live trace whose
size would exceed `max_bytes_per_trace` poisons the id and fails; a new id
is admission-checked against the local live-trace limit before insertion
(`LiveTracesExceeded` on reject) and poisoned likewise when the batch
alone exceeds the per-trace limit.  A failing push applies nothing.  The
result pairs the new state with the reported error, if any. -/
def pushBytes (now : Int) (i : Instance) (id : Bytes) (sz : Nat) :
    Instance × Option PushError :=
  if id ∈ i.tooLargeTraces then
    (i, some (.traceTooLarge id i.maxBytesPerTrace sz))
  else
    match findLiveTrace i.traces id with
    | some t =>
      if i.maxBytesPerTrace ≠ 0 ∧ t.byteSize + sz > i.maxBytesPerTrace then
        ({ i with tooLargeTraces := id :: i.tooLargeTraces },
         some (.traceTooLarge id i.maxBytesPerTrace sz))
      else
        ({ i with traces := updateLiveTrace i.traces id sz now }, none)
    | none =>
      if i.maxLocalTraces ≠ 0 ∧
          localTracesLimit i.maxLocalTraces i.healthyPeers ≤ i.traces.length then
        (i, some .liveTracesExceeded)
      else if i.maxBytesPerTrace ≠ 0 ∧ sz > i.maxBytesPerTrace then
        ({ i with tooLargeTraces := id :: i.tooLargeTraces },
         some (.traceTooLarge id i.maxBytesPerTrace sz))
      else
        ({ i with traces := i.traces ++ [⟨id, sz, now⟩] }, none)

/-- Modelled from the src test: the cut predicate of `CutCompleteTraces`.
`instance.go` is not under the sources; the expected outcomes of
`TestInstanceCutCompleteTraces` (src/modules/ingester/instance_test.go:
297-373) determine the comparison — a trace is cut when `immediate` or
when its last append lies before `now + cutoff` (cutoff `2h` removes a
trace last appended `1h` ago, and `cutoff 0` keeps one last appended `1h`
in the future). -/
def shouldCutTrace (now cutoff : Int) (immediate : Bool) (t : LiveTrace) : Bool :=
  immediate || decide (t.lastAppend < now + cutoff)

/-- The cut predicate exactly as the spec's sentence words it, for
comparison with `shouldCutTrace`: cut when `immediate` or
`now - last_append ≥ cutoff`. -/
def shouldCutTraceSpecWords (now cutoff : Int) (immediate : Bool)
    (t : LiveTrace) : Bool :=
  immediate || decide (now - t.lastAppend ≥ cutoff)

/-- Modelled from the spec: `CutCompleteTraces` (§4.1) — serialize each
live trace selected by the cut predicate into the head block and remove it
from the live table. -/
def cutCompleteTraces (now cutoff : Int) (immediate : Bool) (i : Instance) :
    Instance :=
  let cut := i.traces.filter (shouldCutTrace now cutoff immediate)
  { i with
    traces := i.traces.filter (fun t => !shouldCutTrace now cutoff immediate t)
    headTraces := i.headTraces ++ cut
    headBytes := i.headBytes + (cut.map (fun t => t.byteSize)).sum }

/-- Modelled from the spec: `CutBlockIfReady` (§4.1) — the head block is
cut when `immediate`, or its age reaches `max_block_lifetime`, or its data
length reaches `max_block_bytes`; cutting installs a fresh empty head,
records the cut instant, and clears the poisoned-id set (§4.1
"Implementation: the poisoned-ID set is cleared when the head block is
cut").  The returned flag says whether a block was cut. -/
def cutBlockIfReady (now maxBlockLifetime : Int) (maxBlockBytes : Nat)
    (immediate : Bool) (i : Instance) : Instance × Bool :=
  if immediate || decide (now - i.lastBlockCut ≥ maxBlockLifetime) ||
      decide (maxBlockBytes ≤ i.headBytes) then
    ({ i with
       headTraces := []
       headBytes := 0
       lastBlockCut := now
       tooLargeTraces := [] }, true)
  else (i, false)

/-- One instance-level operation, for stating properties over arbitrary
interleavings of the public surface. -/
inductive InstOp
  | push (now : Int) (id : Bytes) (sz : Nat)
  | cutTraces (now cutoff : Int) (immediate : Bool)
  | cutBlock (now lifetime : Int) (maxBytes : Nat) (immediate : Bool)
deriving DecidableEq

/-- Apply one operation to the instance state. -/
def applyOp (i : Instance) : InstOp → Instance
  | .push now id sz => (pushBytes now i id sz).1
  | .cutTraces now c imm => cutCompleteTraces now c imm i
  | .cutBlock now l m imm => (cutBlockIfReady now l m imm i).1

/-- Run a sequence of operations. -/
def runOps (i : Instance) : List InstOp → Instance
  | [] => i
  | op :: rest => runOps (applyOp i op) rest

/-- Whether some operation of the sequence performs a successful head-block
cut (`CutBlockIfReady` returning a real block id), evaluated along the
run. -/
def runCutsBlock (i : Instance) : List InstOp → Bool
  | [] => false
  | op :: rest =>
    (match op with
     | .cutBlock now l m imm => (cutBlockIfReady now l m imm i).2
     | _ => false) || runCutsBlock (applyOp i op) rest

/-- Push a list of distinct-id batches of one size in order, collecting
each push's error report. -/
def pushSeq (now : Int) (sz : Nat) (i : Instance) :
    List Bytes → Instance × List (Option PushError)
  | [] => (i, [])
  | id :: rest =>
    ((pushSeq now sz (pushBytes now i id sz).1 rest).1,
     (pushBytes now i id sz).2 :: (pushSeq now sz (pushBytes now i id sz).1 rest).2)

/-- A fresh instance with the given limits and healthy-peer count. -/
def freshInstance (maxBytesPerTrace maxLocalTraces healthyPeers : Nat) :
    Instance :=
  { traces := []
    tooLargeTraces := []
    headTraces := []
    headBytes := 0
    lastBlockCut := 0
    maxBytesPerTrace := maxBytesPerTrace
    maxLocalTraces := maxLocalTraces
    healthyPeers := healthyPeers }

/-! Concrete inputs used by the witnesses and counterexamples. -/

/-- The all-zero UUID in canonical textual form. -/
def uuidZeroChars : List Char := "00000000-0000-0000-0000-000000000000".toList

/-- The all-zero UUID. -/
def uuidZero : UUID := ⟨uuidZeroChars, by decide⟩

/-- A decoder whose `FastRange` reports `Unsupported` on every record. -/
def decUnsupported : ObjectDecoder := fun _ => .unsupported

/-- A valid WAL filename: zero block id, tenant "t", version v2,
encoding "none". -/
def fnC1 : List Char := uuidZeroChars ++ ":t:v2:none".toList

/-- A WAL file with one readable record and no truncated tail. -/
def walC1 : WalFile := ⟨[([1], [2])], false⟩

/-- A block holding one record for trace id `[1]`. -/
def blkC9 : V2AppendBlock :=
  { meta := NewBlockMeta 0 "t".toList uuidZero VersionString .encNone []
    ingestionSlack := 0
    entries := [([1], [7])]
    onceDone := false
    readFile := none }

/-- A fresh block whose read file has not been opened yet. -/
def blkC10 : V2AppendBlock :=
  { meta := NewBlockMeta 0 "t".toList uuidZero VersionString .encNone []
    ingestionSlack := 0
    entries := []
    onceDone := false
    readFile := none }

/-- A live trace last appended one hour in the past (relative to now = 0). -/
def liveA : LiveTrace := ⟨[1], 0, -3600⟩

/-- An instance holding only `liveA`. -/
def instA : Instance := { freshInstance 0 0 1 with traces := [liveA] }

/-- Whether the decoder assigns the payload a time range that is still
non-inverted after slack adjustment. -/
def adjustedNonInverted (dec : ObjectDecoder) (now slack asl : Int)
    (p : Bytes) : Bool :=
  match dec p with
  | .ok s e =>
    decide ((adjustTimeRangeForSlack now slack asl s e).1 ≤
            (adjustTimeRangeForSlack now slack asl s e).2.1)
  | _ => false

/-- A WAL file with no readable records. -/
def walEmpty : WalFile := ⟨[], false⟩

/-- A decoder reporting the fixed in-slack range 2000000-2000000. -/
def decOk : ObjectDecoder := fun _ => .ok 2000000 2000000

/-- A WAL file with one readable record and no truncated tail. -/
def walOne : WalFile := ⟨[([1], [9])], false⟩

/-- A WAL file with one readable record followed by a truncated trailing
record. -/
def walTrunc : WalFile := ⟨[([1], [9])], true⟩

/-- A fresh block as `newAppendBlock 42 uuidZero "t" encNone "" 0` builds
it. -/
def blkFresh : V2AppendBlock :=
  { meta := NewBlockMeta 42 "t".toList uuidZero VersionString .encNone []
    ingestionSlack := 0
    entries := []
    onceDone := false
    readFile := none }

/-- The block `newAppendBlockFromFile decOk (some 0) 2000000 1000000 0
fnC1 walOne` recovers. -/
def blkRec : V2AppendBlock :=
  { meta :=
    { tenantID := "t".toList
      blockID := uuidZero
      version := VersionString
      encoding := .encNone
      dataEncoding := []
      startTime := 2000000
      endTime := 2000000
      totalObjects := 1 }
    ingestionSlack := 1000000
    entries := [([1], [9])]
    onceDone := true
    readFile := some 0 }

/-- The trace-too-large scenario of the src test: per-trace limit 100, no
live-trace limit, one healthy peer. -/
def instC2a : Instance := (pushBytes 0 (freshInstance 100 0 1) [1] 100).1

/-- `instC2a` after the over-limit push of 3 further bytes. -/
def instC2b : Instance := (pushBytes 0 instC2a [1] 3).1

/-- `instC2b` after cutting all complete traces. -/
def instC2c : Instance := runOps instC2b [.cutTraces 0 0 true]

/-- `instC2c` after an immediate head-block cut. -/
def instC2d : Instance := (cutBlockIfReady 0 0 0 true instC2c).1

/-! Library lemmas about the embedded definitions. -/

theorem uuidParse_val (u : UUID) : uuidParse u.val = some u := by
  unfold uuidParse
  rw [dif_pos u.property]

theorem uuid_no_colon (u : UUID) : ':' ∉ u.val := by
  intro hmem
  have h := u.property
  unfold isUuidString at h
  rw [Bool.and_eq_true, List.all_eq_true] at h
  exact absurd (h.2 ':' hmem) (by decide)

theorem parseEncoding_encodingToString (e : Encoding) :
    parseEncoding (encodingToString e) = some e := by
  cases e <;> rfl

theorem encodingToString_no_colon (e : Encoding) : ':' ∉ encodingToString e := by
  cases e <;> decide

theorem splitOnChar_ne_nil (sep : Char) (l : List Char) : splitOnChar sep l ≠ [] := by
  cases l with
  | nil => simp [splitOnChar]
  | cons c rest =>
    unfold splitOnChar
    by_cases h : c = sep <;> simp [h]

theorem splitOnChar_no_sep (sep : Char) (l : List Char) (h : sep ∉ l) :
    splitOnChar sep l = [l] := by
  induction l with
  | nil => rfl
  | cons c rest ih =>
    have hc : ¬ c = sep := fun he => h (he ▸ List.mem_cons_self c rest)
    have hr : sep ∉ rest := fun hm => h (List.mem_cons_of_mem c hm)
    unfold splitOnChar
    rw [if_neg hc, ih hr]
    rfl

theorem splitOnChar_append (sep : Char) (a b : List Char) (h : sep ∉ a) :
    splitOnChar sep (a ++ sep :: b) = a :: splitOnChar sep b := by
  induction a with
  | nil => simp [splitOnChar]
  | cons c rest ih =>
    have hc : ¬ c = sep := fun he => h (he ▸ List.mem_cons_self c rest)
    have hr : sep ∉ rest := fun hm => h (List.mem_cons_of_mem c hm)
    have hcons := ih hr
    show splitOnChar sep (c :: (rest ++ sep :: b)) = (c :: rest) :: splitOnChar sep b
    conv_lhs => unfold splitOnChar
    rw [if_neg hc, hcons]
    rfl

theorem splitOnChar_four (u t v en : List Char)
    (hu : ':' ∉ u) (ht : ':' ∉ t) (hv : ':' ∉ v) (hen : ':' ∉ en) :
    splitOnChar ':' (u ++ ':' :: t ++ ':' :: v ++ ':' :: en) = [u, t, v, en] := by
  have e1 : u ++ ':' :: t ++ ':' :: v ++ ':' :: en
      = u ++ ':' :: (t ++ ':' :: (v ++ ':' :: en)) := by
    simp [List.cons_append, List.append_assoc]
  rw [e1, splitOnChar_append ':' u _ hu, splitOnChar_append ':' t _ ht,
    splitOnChar_append ':' v _ hv, splitOnChar_no_sep ':' en hen]

theorem splitOnChar_five (u t v en de : List Char)
    (hu : ':' ∉ u) (ht : ':' ∉ t) (hv : ':' ∉ v) (hen : ':' ∉ en)
    (hde : ':' ∉ de) :
    splitOnChar ':' (u ++ ':' :: t ++ ':' :: v ++ ':' :: en ++ ':' :: de) =
      [u, t, v, en, de] := by
  have e1 : u ++ ':' :: t ++ ':' :: v ++ ':' :: en ++ ':' :: de
      = u ++ ':' :: (t ++ ':' :: (v ++ ':' :: (en ++ ':' :: de))) := by
    simp [List.cons_append, List.append_assoc]
  rw [e1, splitOnChar_append ':' u _ hu, splitOnChar_append ':' t _ ht,
    splitOnChar_append ':' v _ hv, splitOnChar_append ':' en _ hen,
    splitOnChar_no_sep ':' de hde]

theorem ParseFilename_of_splits4 (name : List Char) (u : UUID)
    (t en : List Char) (e : Encoding)
    (h : splitOnChar ':' name = [u.val, t, VersionString, en])
    (ht : ¬ t = []) (hen : parseEncoding en = some e) :
    ParseFilename name = some (u, t, VersionString, e, []) := by
  unfold ParseFilename
  rw [h]
  simp [uuidParse_val, ht, hen]

theorem ParseFilename_of_splits5 (name : List Char) (u : UUID)
    (t en de : List Char) (e : Encoding)
    (h : splitOnChar ':' name = [u.val, t, VersionString, en, de])
    (ht : ¬ t = []) (hen : parseEncoding en = some e) :
    ParseFilename name = some (u, t, VersionString, e, de) := by
  unfold ParseFilename
  rw [h]
  simp [uuidParse_val, ht, hen]

theorem ParseFilename_none_of_bad_count (name : List Char)
    (h : ¬ ((splitOnChar ':' name).length = 4 ∨ (splitOnChar ':' name).length = 5)) :
    ParseFilename name = none := by
  unfold ParseFilename
  rw [if_neg h]

theorem ParseFilename_none_of_bad_version (name : List Char)
    (hv : (splitOnChar ':' name).getD 2 [] ≠ VersionString) :
    ParseFilename name = none := by
  unfold ParseFilename
  repeat' first
  | rfl
  | exact absurd (by assumption) hv
  | split

theorem replayCb_ok_bounds (dec : ObjectDecoder) (now slack asl : Int)
    (st st1 : Nat × Nat) (p : Bytes)
    (h : replayCb dec now slack asl st p = .ok st1) :
    st1.1 ≤ st.1 ∧ st.2 ≤ st1.2 := by
  unfold replayCb at h
  split at h
  · cases h
  · cases h
  · cases h
    exact ⟨Nat.min_le_left _ _, Nat.le_max_left _ _⟩

theorem replayFoldRange_mono (dec : ObjectDecoder) (now slack asl : Int)
    (ps : List Bytes) : ∀ (st st' : Nat × Nat),
    replayFoldRange dec now slack asl st ps = .ok st' →
    st'.1 ≤ st.1 ∧ st.2 ≤ st'.2 := by
  induction ps with
  | nil =>
    intro st st' h
    unfold replayFoldRange at h
    cases h
    exact ⟨Nat.le_refl _, Nat.le_refl _⟩
  | cons p ps ih =>
    intro st st' h
    unfold replayFoldRange at h
    split at h
    · cases h
    · next st1 hcb =>
      have h1 := replayCb_ok_bounds dec now slack asl st st1 p hcb
      have h2 := ih st1 st' h
      exact ⟨Nat.le_trans h2.1 h1.1, Nat.le_trans h1.2 h2.2⟩

theorem replayFoldRange_le_of_mem (dec : ObjectDecoder) (now slack asl : Int)
    (ps : List Bytes) : ∀ (st st' : Nat × Nat) (p : Bytes) (s e : Nat),
    p ∈ ps → replayFoldRange dec now slack asl st ps = .ok st' →
    dec p = .ok s e →
    st'.1 ≤ (adjustTimeRangeForSlack now slack asl s e).1 ∧
    (adjustTimeRangeForSlack now slack asl s e).2.1 ≤ st'.2 := by
  induction ps with
  | nil =>
    intro st st' p s e hmem _ _
    cases hmem
  | cons q qs ih =>
    intro st st' p s e hmem h hd
    unfold replayFoldRange at h
    split at h
    · cases h
    · next st1 hcb =>
      rcases List.mem_cons.mp hmem with rfl | hmem'
      · have hmono := replayFoldRange_mono dec now slack asl qs st1 st' h
        unfold replayCb at hcb
        rw [hd] at hcb
        cases hcb
        constructor
        · exact Nat.le_trans hmono.1 (Nat.min_le_right _ _)
        · exact Nat.le_trans (Nat.le_max_right _ _) hmono.2
      · exact ih st1 st' p s e hmem' h hd

theorem replayFoldRange_ok_of_all_ok (dec : ObjectDecoder) (now slack asl : Int)
    (ps : List Bytes) : ∀ (st : Nat × Nat),
    (∀ p ∈ ps, ∃ s e, dec p = .ok s e) →
    ∃ st', replayFoldRange dec now slack asl st ps = .ok st' := by
  induction ps with
  | nil =>
    intro st _
    exact ⟨st, rfl⟩
  | cons q qs ih =>
    intro st hall
    obtain ⟨s, e, hd⟩ := hall q (List.mem_cons_self q qs)
    have hcb : replayCb dec now slack asl st q =
        .ok (min st.1 (adjustTimeRangeForSlack now slack asl s e).1,
             max st.2 (adjustTimeRangeForSlack now slack asl s e).2.1) := by
      unfold replayCb
      rw [hd]
    unfold replayFoldRange
    rw [hcb]
    exact ih _ (fun p hp => hall p (List.mem_cons_of_mem q hp))

theorem pushBytes_of_poisoned (now : Int) (i : Instance) (id : Bytes) (sz : Nat)
    (h : id ∈ i.tooLargeTraces) :
    pushBytes now i id sz = (i, some (.traceTooLarge id i.maxBytesPerTrace sz)) := by
  unfold pushBytes
  rw [if_pos h]

theorem pushBytes_poison_mono (now : Int) (i : Instance) (idp : Bytes)
    (sz : Nat) (x : Bytes) (hx : x ∈ i.tooLargeTraces) :
    x ∈ (pushBytes now i idp sz).1.tooLargeTraces := by
  unfold pushBytes
  by_cases h0 : idp ∈ i.tooLargeTraces
  · rw [if_pos h0]
    exact hx
  · rw [if_neg h0]
    cases hf : findLiveTrace i.traces idp with
    | some t =>
      simp only [hf]
      by_cases hsz : i.maxBytesPerTrace ≠ 0 ∧ t.byteSize + sz > i.maxBytesPerTrace
      · rw [if_pos hsz]
        exact List.mem_cons_of_mem _ hx
      · rw [if_neg hsz]
        exact hx
    | none =>
      simp only [hf]
      by_cases hlim : i.maxLocalTraces ≠ 0 ∧
          localTracesLimit i.maxLocalTraces i.healthyPeers ≤ i.traces.length
      · rw [if_pos hlim]
        exact hx
      · rw [if_neg hlim]
        by_cases hsz : i.maxBytesPerTrace ≠ 0 ∧ sz > i.maxBytesPerTrace
        · rw [if_pos hsz]
          exact List.mem_cons_of_mem _ hx
        · rw [if_neg hsz]
          exact hx

theorem pushBytes_tooLarge_poisons (now : Int) (i : Instance) (id : Bytes)
    (sz m r : Nat)
    (h : (pushBytes now i id sz).2 = some (.traceTooLarge id m r)) :
    id ∈ (pushBytes now i id sz).1.tooLargeTraces := by
  unfold pushBytes at h ⊢
  by_cases h0 : id ∈ i.tooLargeTraces
  · rw [if_pos h0]
    exact h0
  · rw [if_neg h0] at h ⊢
    cases hf : findLiveTrace i.traces id with
    | some t =>
      simp only [hf] at h ⊢
      by_cases hsz : i.maxBytesPerTrace ≠ 0 ∧ t.byteSize + sz > i.maxBytesPerTrace
      · rw [if_pos hsz]
        exact List.mem_cons_self _ _
      · rw [if_neg hsz] at h
        simp at h
    | none =>
      simp only [hf] at h ⊢
      by_cases hlim : i.maxLocalTraces ≠ 0 ∧
          localTracesLimit i.maxLocalTraces i.healthyPeers ≤ i.traces.length
      · rw [if_pos hlim] at h
        simp at h
      · rw [if_neg hlim] at h ⊢
        by_cases hsz : i.maxBytesPerTrace ≠ 0 ∧ sz > i.maxBytesPerTrace
        · rw [if_pos hsz]
          exact List.mem_cons_self _ _
        · rw [if_neg hsz] at h
          simp at h

theorem pushBytes_maxBytes (now : Int) (i : Instance) (idp : Bytes) (sz : Nat) :
    (pushBytes now i idp sz).1.maxBytesPerTrace = i.maxBytesPerTrace := by
  unfold pushBytes
  by_cases h0 : idp ∈ i.tooLargeTraces
  · rw [if_pos h0]
  · rw [if_neg h0]
    cases hf : findLiveTrace i.traces idp with
    | some t =>
      simp only [hf]
      by_cases hsz : i.maxBytesPerTrace ≠ 0 ∧ t.byteSize + sz > i.maxBytesPerTrace
      · rw [if_pos hsz]
      · rw [if_neg hsz]
    | none =>
      simp only [hf]
      by_cases hlim : i.maxLocalTraces ≠ 0 ∧
          localTracesLimit i.maxLocalTraces i.healthyPeers ≤ i.traces.length
      · rw [if_pos hlim]
      · rw [if_neg hlim]
        by_cases hsz : i.maxBytesPerTrace ≠ 0 ∧ sz > i.maxBytesPerTrace
        · rw [if_pos hsz]
        · rw [if_neg hsz]

theorem pushBytes_fresh_succeeds (now : Int) (j : Instance) (id : Bytes) (sz : Nat)
    (h1 : id ∉ j.tooLargeTraces)
    (h2 : findLiveTrace j.traces id = none)
    (h3 : j.maxLocalTraces = 0 ∨
      j.traces.length < localTracesLimit j.maxLocalTraces j.healthyPeers)
    (h4 : j.maxBytesPerTrace = 0 ∨ sz ≤ j.maxBytesPerTrace) :
    pushBytes now j id sz =
      ({ j with traces := j.traces ++ [⟨id, sz, now⟩] }, none) := by
  have hlim : ¬ (j.maxLocalTraces ≠ 0 ∧
      localTracesLimit j.maxLocalTraces j.healthyPeers ≤ j.traces.length) := by
    rcases h3 with h | h
    · exact fun hc => hc.1 h
    · exact fun hc => absurd hc.2 (Nat.not_le.mpr h)
  have hsz : ¬ (j.maxBytesPerTrace ≠ 0 ∧ sz > j.maxBytesPerTrace) := by
    rcases h4 with h | h
    · exact fun hc => hc.1 h
    · exact fun hc => absurd hc.2 (Nat.not_lt.mpr h)
  unfold pushBytes
  rw [if_neg h1]
  simp only [h2]
  rw [if_neg hlim, if_neg hsz]

theorem cutBlockIfReady_not_cut (now l : Int) (m : Nat) (imm : Bool)
    (i : Instance) (h : (cutBlockIfReady now l m imm i).2 = false) :
    (cutBlockIfReady now l m imm i).1 = i := by
  unfold cutBlockIfReady at h ⊢
  split at h
  · cases h
  · rw [if_neg (by assumption)]

theorem cutBlockIfReady_immediate_clears (now l : Int) (m : Nat) (i : Instance) :
    (cutBlockIfReady now l m true i).1.tooLargeTraces = [] := by
  unfold cutBlockIfReady
  rw [if_pos (by simp)]

theorem applyOp_preserves_poison (i : Instance) (op : InstOp) (x : Bytes)
    (hx : x ∈ i.tooLargeTraces)
    (hnc : (match op with
      | .cutBlock now l m imm => (cutBlockIfReady now l m imm i).2
      | _ => false) = false) :
    x ∈ (applyOp i op).tooLargeTraces := by
  cases op with
  | push now id sz => exact pushBytes_poison_mono now i id sz x hx
  | cutTraces now c imm => exact hx
  | cutBlock now l m imm =>
    have hid := cutBlockIfReady_not_cut now l m imm i hnc
    show x ∈ (cutBlockIfReady now l m imm i).1.tooLargeTraces
    rw [hid]
    exact hx

theorem applyOp_maxBytes (i : Instance) (op : InstOp) :
    (applyOp i op).maxBytesPerTrace = i.maxBytesPerTrace := by
  cases op with
  | push now id sz => exact pushBytes_maxBytes now i id sz
  | cutTraces now c imm => rfl
  | cutBlock now l m imm =>
    show (cutBlockIfReady now l m imm i).1.maxBytesPerTrace = _
    unfold cutBlockIfReady
    split
    · rfl
    · rfl

theorem runOps_maxBytes (ops : List InstOp) : ∀ i : Instance,
    (runOps i ops).maxBytesPerTrace = i.maxBytesPerTrace := by
  induction ops with
  | nil =>
    intro i
    rfl
  | cons op rest ih =>
    intro i
    unfold runOps
    rw [ih (applyOp i op), applyOp_maxBytes]

theorem runOps_preserves_poison (ops : List InstOp) :
    ∀ (i : Instance) (x : Bytes), x ∈ i.tooLargeTraces →
    runCutsBlock i ops = false → x ∈ (runOps i ops).tooLargeTraces := by
  induction ops with
  | nil =>
    intro i x hx _
    exact hx
  | cons op rest ih =>
    intro i x hx hnc
    unfold runCutsBlock at hnc
    rw [Bool.or_eq_false_iff] at hnc
    exact ih (applyOp i op) x (applyOp_preserves_poison i op x hx hnc.1) hnc.2

theorem findLiveTrace_none_iff (ts : List LiveTrace) (id : Bytes) :
    findLiveTrace ts id = none ↔ ∀ t ∈ ts, ¬ (t.traceID = id) := by
  unfold findLiveTrace
  rw [List.find?_eq_none]
  simp

theorem findLiveTrace_append_single (ts : List LiveTrace) (x : LiveTrace)
    (id : Bytes) (h1 : findLiveTrace ts id = none) (h2 : ¬ x.traceID = id) :
    findLiveTrace (ts ++ [x]) id = none := by
  rw [findLiveTrace_none_iff] at h1 ⊢
  intro t ht
  rcases List.mem_append.mp ht with h | h
  · exact h1 t h
  · rw [List.mem_singleton.mp h]
    exact h2

theorem localTracesLimit_one (maxLocal : Nat) :
    localTracesLimit maxLocal 1 = maxLocal := by
  unfold localTracesLimit
  simp

theorem pushSeq_distinct_fresh (now : Int) (sz : Nat) (ids : List Bytes) :
    ∀ (j : Instance), ids.Nodup →
    (∀ id ∈ ids, findLiveTrace j.traces id = none) →
    j.tooLargeTraces = [] →
    (j.maxBytesPerTrace = 0 ∨ sz ≤ j.maxBytesPerTrace) →
    (j.maxLocalTraces = 0 ∨ j.traces.length + ids.length ≤
      localTracesLimit j.maxLocalTraces j.healthyPeers) →
    (pushSeq now sz j ids).2 = ids.map (fun _ => none) ∧
    (pushSeq now sz j ids).1.traces =
      j.traces ++ ids.map (fun id => ⟨id, sz, now⟩) ∧
    (pushSeq now sz j ids).1.tooLargeTraces = [] ∧
    (pushSeq now sz j ids).1.maxBytesPerTrace = j.maxBytesPerTrace ∧
    (pushSeq now sz j ids).1.maxLocalTraces = j.maxLocalTraces ∧
    (pushSeq now sz j ids).1.healthyPeers = j.healthyPeers := by
  induction ids with
  | nil =>
    intro j _ _ htl _ _
    exact ⟨rfl, (List.append_nil _).symm, htl, rfl, rfl, rfl⟩
  | cons id rest ih =>
    intro j hnd hfresh htl hsz hlim
    have hstep := pushBytes_fresh_succeeds now j id sz
      (by rw [htl]; exact List.not_mem_nil id)
      (hfresh id (List.mem_cons_self id rest))
      (by
        rcases hlim with h | h
        · exact Or.inl h
        · refine Or.inr ?_
          simp only [List.length_cons] at h
          omega)
      hsz
    have hfresh' : ∀ id2 ∈ rest,
        findLiveTrace (j.traces ++ [⟨id, sz, now⟩]) id2 = none := by
      intro id2 hid2
      refine findLiveTrace_append_single _ _ _
        (hfresh id2 (List.mem_cons_of_mem id hid2)) ?_
      intro hEq
      have hEq' : id = id2 := hEq
      exact (List.nodup_cons.mp hnd).1 (by rw [hEq']; exact hid2)
    have hlim' : ({ j with traces := j.traces ++ [⟨id, sz, now⟩] } : Instance).maxLocalTraces = 0 ∨
        ({ j with traces := j.traces ++ [⟨id, sz, now⟩] } : Instance).traces.length + rest.length ≤
          localTracesLimit j.maxLocalTraces j.healthyPeers := by
      rcases hlim with h | h
      · exact Or.inl h
      · refine Or.inr ?_
        show (j.traces ++ [(⟨id, sz, now⟩ : LiveTrace)]).length + rest.length ≤ _
        simp only [List.length_cons] at h
        simp only [List.length_append, List.length_singleton]
        omega
    obtain ⟨e1, e2, e3, e4, e5, e6⟩ :=
      ih { j with traces := j.traces ++ [⟨id, sz, now⟩] }
        (List.nodup_cons.mp hnd).2 hfresh' htl hsz hlim'
    simp only [pushSeq, hstep, List.map_cons]
    refine ⟨by rw [e1], ?_, e3, e4, e5, e6⟩
    rw [e2]
    simp [List.append_assoc]

/-! Claim theorems. -/

/-- Claim C1: during WAL replay, a record for which `FastRange` reports
`Unsupported` is supposed to be given `now` for both bounds and replay is
supposed to succeed; but the replay callback returns the unmodified error
after the dead `start = end = now` assignments, so `newAppendBlockFromFile`
aborts with a fatal replay error on such a record.  The theorem evaluates
the embedded source at the failing input. -/
theorem claim1_unsupported_record_aborts_replay :
    newAppendBlockFromFile decUnsupported (some 0) 1000 0 0 fnC1 walC1 =
      .error (.replay .unsupported) := by rfl

/-- Claim C2: once a push reports TraceTooLarge the id is poisoned: every
subsequent push with the same id — across any sequence of pushes and
CutCompleteTraces calls containing no successful CutBlockIfReady — again
returns TraceTooLarge with the instance's per-trace limit; a successful
(here immediate) CutBlockIfReady empties the poisoned-id set, after which
a push of a fresh trace with the same id (its live entry having been cut
away, the size and live-trace limits respected) succeeds. -/
theorem claim2_poisoning (i : Instance) (now : Int) (id : Bytes) (sz : Nat)
    (h : (pushBytes now i id sz).2 =
      some (.traceTooLarge id i.maxBytesPerTrace sz)) :
    (id ∈ (pushBytes now i id sz).1.tooLargeTraces) ∧
    (∀ ops, runCutsBlock (pushBytes now i id sz).1 ops = false →
      ∀ (now2 : Int) (sz2 : Nat),
        (pushBytes now2 (runOps (pushBytes now i id sz).1 ops) id sz2).2 =
          some (.traceTooLarge id i.maxBytesPerTrace sz2)) ∧
    (∀ (nc lt : Int) (mb : Nat) (j : Instance),
      (cutBlockIfReady nc lt mb true j).1.tooLargeTraces = []) ∧
    (∀ (now3 : Int) (j : Instance) (sz3 : Nat),
      id ∉ j.tooLargeTraces → findLiveTrace j.traces id = none →
      (j.maxLocalTraces = 0 ∨
        j.traces.length < localTracesLimit j.maxLocalTraces j.healthyPeers) →
      (j.maxBytesPerTrace = 0 ∨ sz3 ≤ j.maxBytesPerTrace) →
      (pushBytes now3 j id sz3).2 = none) := by
  refine ⟨pushBytes_tooLarge_poisons now i id sz _ _ h, ?_, ?_, ?_⟩
  · intro ops hops now2 sz2
    have hmem := runOps_preserves_poison ops (pushBytes now i id sz).1 id
      (pushBytes_tooLarge_poisons now i id sz _ _ h) hops
    have hmax : (runOps (pushBytes now i id sz).1 ops).maxBytesPerTrace =
        i.maxBytesPerTrace := by
      rw [runOps_maxBytes, pushBytes_maxBytes]
    rw [pushBytes_of_poisoned now2 _ id sz2 hmem, hmax]
  · intro nc lt mb j
    exact cutBlockIfReady_immediate_clears nc lt mb j
  · intro now3 j sz3 hj1 hj2 hj3 hj4
    rw [pushBytes_fresh_succeeds now3 j id sz3 hj1 hj2 hj3 hj4]

/-- Claim C2 witness: per-trace limit 100; push of 100 bytes succeeds, the
next push of 3 bytes reports TraceTooLarge, a push of 5 bytes after
CutCompleteTraces still reports TraceTooLarge, and after an immediate
CutBlockIfReady a fresh 100-byte push with the same id succeeds. -/
theorem claim2_witness :
    (pushBytes 0 instC2a [1] 3).2 = some (.traceTooLarge [1] 100 3) ∧
    (pushBytes 0 instC2c [1] 5).2 = some (.traceTooLarge [1] 100 5) ∧
    instC2d.tooLargeTraces = [] ∧
    (pushBytes 1 instC2d [1] 100).2 = none := by
  have main := claim2_poisoning instC2a 0 [1] 3 (by decide)
  refine ⟨by decide, ?_, ?_, ?_⟩
  · exact main.2.1 [.cutTraces 0 0 true] (by decide) 0 5
  · exact main.2.2.1 0 0 0 instC2c
  · exact main.2.2.2 1 instC2d 100 (by decide) (by decide)
      (Or.inl (by decide)) (Or.inr (by decide))

/-- Claim C3 counterexample: at now = 0 with cutoff = 2h and immediate =
false, trace A (last appended 1h ago) does not satisfy the claim's
predicate `now - last_append ≥ cutoff`, yet `cutCompleteTraces` removes it
(as the src test `TestInstanceCutCompleteTraces` requires), so the removal
set is not the predicate set the claim states. -/
theorem claim3_counterexample :
    (cutCompleteTraces 0 7200 false instA).traces ≠
      instA.traces.filter (fun t => ! shouldCutTraceSpecWords 0 7200 false t) := by
  decide

/-- Claim C3 (amended): `CutCompleteTraces(cutoff, immediate)` removes from
the live table exactly the traces satisfying `immediate` or
`last_append < now + cutoff`, appending them to the head block; in
particular with `lastAppend = now - 1h` on A and `now + 1h` on B,
cutoff 0 leaves only B and cutoff 2h removes both. -/
theorem claim3_cut_exactly (now cutoff : Int) (imm : Bool) (i : Instance) :
    ((cutCompleteTraces now cutoff imm i).traces =
      i.traces.filter (fun t => ! shouldCutTrace now cutoff imm t)) ∧
    ((cutCompleteTraces now cutoff imm i).headTraces =
      i.headTraces ++ i.traces.filter (shouldCutTrace now cutoff imm)) ∧
    (∀ t, t ∈ (cutCompleteTraces now cutoff imm i).traces ↔
      t ∈ i.traces ∧ shouldCutTrace now cutoff imm t = false) ∧
    (∀ (a b : Bytes) (sa sb : Nat),
      (cutCompleteTraces now 0 false
        { freshInstance 0 0 1 with
          traces := [⟨a, sa, now - 3600⟩, ⟨b, sb, now + 3600⟩] }).traces =
        [⟨b, sb, now + 3600⟩] ∧
      (cutCompleteTraces now 7200 false
        { freshInstance 0 0 1 with
          traces := [⟨a, sa, now - 3600⟩, ⟨b, sb, now + 3600⟩] }).traces = []) := by
  refine ⟨rfl, rfl, ?_, ?_⟩
  · intro t
    simp [cutCompleteTraces, List.mem_filter]
  · intro a b sa sb
    have h1 : now - 3600 < now + 0 := by omega
    have h2 : ¬ (now + 3600 < now + 0) := by omega
    have h3 : now - 3600 < now + 7200 := by omega
    have h4 : now + 3600 < now + 7200 := by omega
    constructor <;>
      simp [cutCompleteTraces, shouldCutTrace, freshInstance, h1, h2, h3, h4]

/-- Claim C4 counterexample: with now = 1000 and slack = 10, the incoming
start 2000 lies outside the window [990, 1010] yet is returned unchanged
and no warning is counted — values are not clamped from above. -/
theorem claim4_counterexample :
    adjustTimeRangeForSlack 1000 10 0 2000 1000 = (2000, 1000, false) ∧
    ¬ ((2000 : Nat) ≤ u32 (1000 + 10)) := by decide

/-- Claim C4 (amended): on every call (`Append` passes zero additional
start slack, the replay callback its `additionalStartSlack`), `start` is
clamped only from below — `start < now - slack - additionalStartSlack` is
replaced with `now` — and `end` only from above — `end > now + slack` is
replaced with `now`; the warning counter is incremented exactly when one
of the two replacements fires, and values not crossing their own bound are
returned unchanged. -/
theorem claim4_slack_clamps_one_sided (now slack asl : Int) (s e : Nat) :
    (s < u32 (now - slack - asl) →
      (adjustTimeRangeForSlack now slack asl s e).1 = u32 now) ∧
    (u32 (now - slack - asl) ≤ s →
      (adjustTimeRangeForSlack now slack asl s e).1 = s) ∧
    (u32 (now + slack) < e →
      (adjustTimeRangeForSlack now slack asl s e).2.1 = u32 now) ∧
    (e ≤ u32 (now + slack) →
      (adjustTimeRangeForSlack now slack asl s e).2.1 = e) ∧
    ((adjustTimeRangeForSlack now slack asl s e).2.2 =
      (decide (s < u32 (now - slack - asl)) || decide (u32 (now + slack) < e))) ∧
    (∀ (a : V2AppendBlock) (id p : Bytes),
      (Append now a id p s e).meta =
        ObjectAdded a.meta
          (adjustTimeRangeForSlack now a.ingestionSlack 0 s e).1
          (adjustTimeRangeForSlack now a.ingestionSlack 0 s e).2.1) ∧
    (∀ (dec : ObjectDecoder) (st : Nat × Nat) (p : Bytes), dec p = .ok s e →
      replayCb dec now slack asl st p =
        .ok (min st.1 (adjustTimeRangeForSlack now slack asl s e).1,
             max st.2 (adjustTimeRangeForSlack now slack asl s e).2.1)) := by
  refine ⟨?_, ?_, ?_, ?_, rfl, fun a id p => rfl, ?_⟩
  · intro h
    simp [adjustTimeRangeForSlack, h]
  · intro h
    simp [adjustTimeRangeForSlack, Nat.not_lt.mpr h]
  · intro h
    simp [adjustTimeRangeForSlack, h]
  · intro h
    simp [adjustTimeRangeForSlack, Nat.not_lt.mpr h]
  · intro dec st p hdec
    simp [replayCb, hdec]

/-- Claim C4 witness: at now = 1000, slack = 10: start 985 (below 990) is
replaced with now, while end 1005 (inside the window) is unchanged. -/
theorem claim4_witness :
    (adjustTimeRangeForSlack 1000 10 0 985 1005).1 = u32 1000 ∧
    (adjustTimeRangeForSlack 1000 10 0 995 1005).2.1 = 1005 :=
  ⟨(claim4_slack_clamps_one_sided 1000 10 0 985 1005).1 (by decide),
   (claim4_slack_clamps_one_sided 1000 10 0 995 1005).2.2.2.1 (by decide)⟩

/-- Claim C5 counterexample: a WAL file with zero readable records is
recovered without a fatal error, but its block has start_time = MaxUint32
and end_time = 0, violating start_time ≤ end_time. -/
theorem claim5_counterexample :
    (newAppendBlockFromFile decOk (some 0) 1000 0 0 fnC1 walEmpty).toOption.map
      (fun pr => decide (pr.1.meta.startTime ≤ pr.1.meta.endTime)) =
      some false := by rfl

/-- Claim C5 (amended): `start_time ≤ end_time` holds for a block freshly
created by `newAppendBlock`, is preserved by every successful `Append`,
and holds for a block recovered by `newAppendBlockFromFile` provided some
readable record's decoded range is still non-inverted after slack
adjustment; it does NOT hold for a file with zero readable records, where
`start_time = MaxUint32 > 0 = end_time` (see the counterexample). -/
theorem claim5_time_window :
    (∀ (now : Int) (id : UUID) (tenant : List Char) (e : Encoding)
        (de : List Char) (slack : Int) (b : V2AppendBlock),
      newAppendBlock now id tenant e de slack = some b →
      b.meta.startTime ≤ b.meta.endTime) ∧
    (∀ (now : Int) (a : V2AppendBlock) (id p : Bytes) (s e : Nat),
      a.meta.startTime ≤ a.meta.endTime →
      (Append now a id p s e).meta.startTime ≤
        (Append now a id p s e).meta.endTime) ∧
    (∀ (dec : ObjectDecoder) (openRes : Option Nat) (now slack asl : Int)
        (fn : List Char) (f : WalFile) (b : V2AppendBlock)
        (w : Option ReplayWarning),
      newAppendBlockFromFile dec openRes now slack asl fn f = .ok (b, w) →
      (∃ pr ∈ f.entries, adjustedNonInverted dec now slack asl pr.2 = true) →
      b.meta.startTime ≤ b.meta.endTime) := by
  refine ⟨?_, ?_, ?_⟩
  · intro now id tenant e de slack b hb
    unfold newAppendBlock at hb
    split at hb
    · cases hb
    · cases hb
      exact le_refl _
  · intro now a id p s e h
    exact le_trans (min_le_left _ _) (le_trans h (le_max_left _ _))
  · intro dec openRes now slack asl fn f b w h hex
    unfold newAppendBlockFromFile at h
    split at h
    · cases h
    · split at h
      · cases h
      · split at h
        · cases h
        · next bs be hfold =>
          cases h
          obtain ⟨pr, hpr, hgood⟩ := hex
          unfold adjustedNonInverted at hgood
          split at hgood
          · next s e heq =>
            have hse := of_decide_eq_true hgood
            have hmem : pr.2 ∈ f.entries.map (fun r => r.2) :=
              List.mem_map_of_mem _ hpr
            have hb := replayFoldRange_le_of_mem dec now slack asl
              (f.entries.map (fun r => r.2)) (4294967295, 0) (bs, be)
              pr.2 s e hmem hfold heq
            have hbe : bs ≤ be := le_trans hb.1 (le_trans hse hb.2)
            show ((bs : Nat) : Int) ≤ ((be : Nat) : Int)
            exact_mod_cast hbe
          · cases hgood

/-- Claim C5 witness: the fresh block `blkFresh`, an append to it, and the
recovered block `blkRec` all satisfy start_time ≤ end_time, each obtained
through the corresponding conjunct of the theorem. -/
theorem claim5_witness :
    blkFresh.meta.startTime ≤ blkFresh.meta.endTime ∧
    (Append 0 blkFresh [1] [2] 5 5).meta.startTime ≤
      (Append 0 blkFresh [1] [2] 5 5).meta.endTime ∧
    blkRec.meta.startTime ≤ blkRec.meta.endTime := by
  have h1 := claim5_time_window.1 42 uuidZero ("t".toList) .encNone [] 0
    blkFresh (by rfl)
  refine ⟨h1, claim5_time_window.2.1 0 blkFresh [1] [2] 5 5 h1, ?_⟩
  exact claim5_time_window.2.2 decOk (some 0) 2000000 1000000 0 fnC1 walOne
    blkRec none (by rfl) ⟨([1], [9]), by decide, by decide⟩

/-- Claim C7: when the WAL file ends in a truncated trailing record and
every readable record decodes, `newAppendBlockFromFile` succeeds with a
non-nil warning and a nil fatal error: the block is rebuilt from the
readable prefix, its TotalObjects is the number of replayed records, and
its start/end are the window the replay fold derives from them. -/
theorem claim7_truncated_replay_succeeds (dec : ObjectDecoder) (h0 : Nat)
    (now slack asl : Int) (fn : List Char)
    (flds : UUID × List Char × List Char × Encoding × List Char)
    (f : WalFile)
    (hparse : ParseFilename fn = some flds)
    (hdec : ∀ pr ∈ f.entries, ∃ s e, dec pr.2 = .ok s e)
    (htr : f.truncatedTail = true) :
    ∃ b bs be,
      newAppendBlockFromFile dec (some h0) now slack asl fn f =
        .ok (b, some .truncated) ∧
      replayFoldRange dec now slack asl (4294967295, 0)
        (f.entries.map (fun r => r.2)) = .ok (bs, be) ∧
      b.meta.totalObjects = f.entries.length ∧
      b.meta.startTime = (bs : Int) ∧
      b.meta.endTime = (be : Int) ∧
      b.entries = f.entries := by
  rcases flds with ⟨bid, tenant, version, e, de⟩
  have hall : ∀ p ∈ f.entries.map (fun r => r.2), ∃ s ee, dec p = .ok s ee := by
    intro p hp
    rcases List.mem_map.mp hp with ⟨pr, hpr, rfl⟩
    exact hdec pr hpr
  obtain ⟨st', hfold⟩ := replayFoldRange_ok_of_all_ok dec now slack asl
    (f.entries.map (fun r => r.2)) (4294967295, 0) hall
  rcases st' with ⟨bs, be⟩
  have hfe : file (some h0)
      { meta := NewBlockMeta now tenant bid version e de
        ingestionSlack := slack
        entries := []
        onceDone := false
        readFile := none } =
      (some h0, none,
        { meta := NewBlockMeta now tenant bid version e de
          ingestionSlack := slack
          entries := []
          onceDone := true
          readFile := some h0 }) := by
    simp [file]
  have hmain : newAppendBlockFromFile dec (some h0) now slack asl fn f =
      .ok
        ({ meta :=
           { tenantID := tenant
             blockID := bid
             version := version
             encoding := e
             dataEncoding := de
             startTime := (bs : Int)
             endTime := (be : Int)
             totalObjects := f.entries.length }
           ingestionSlack := slack
           entries := f.entries
           onceDone := true
           readFile := some h0 }, some .truncated) := by
    unfold newAppendBlockFromFile
    simp only [hparse, hfe, hfold, htr]
    rfl
  exact ⟨_, bs, be, hmain, hfold, rfl, rfl, rfl, rfl⟩

/-- Claim C7 witness: concrete replay of a one-record file with a
truncated tail succeeds with the truncation warning. -/
theorem claim7_witness :
    ∃ b bs be,
      newAppendBlockFromFile decOk (some 0) 2000000 1000000 0 fnC1 walTrunc =
        .ok (b, some .truncated) ∧
      replayFoldRange decOk 2000000 1000000 0 (4294967295, 0)
        (walTrunc.entries.map (fun r => r.2)) = .ok (bs, be) ∧
      b.meta.totalObjects = walTrunc.entries.length ∧
      b.meta.startTime = (bs : Int) ∧
      b.meta.endTime = (be : Int) ∧
      b.entries = walTrunc.entries :=
  claim7_truncated_replay_succeeds decOk 0 2000000 1000000 0 fnC1
    (uuidZero, "t".toList, VersionString, .encNone, []) walTrunc
    (by rfl) (fun pr _ => ⟨2000000, 2000000, rfl⟩) rfl

/-- Claim C6 counterexample: `newAppendBlock` accepts the tenant ":"
(only the dataEncoding is validated), yet the name `fullFilename` then
produces does not parse back to the block's fields — `ParseFilename`
fails on it. -/
theorem claim6_counterexample :
    (newAppendBlock 0 uuidZero [':'] Encoding.snappy [] 0).map
      (fun b => ParseFilename (fullFilename b)) = some none := by rfl

/-- Claim C6 (amended): for every block accepted by `newAppendBlock`
(dataEncoding colon-free and at most 32 characters) whose tenant id is
additionally nonempty and colon-free, `ParseFilename` applied to the
name produced by `fullFilename` returns exactly the block's blockID,
tenantID, version, encoding and dataEncoding; and `ParseFilename` fails
on any name whose colon-separated field count is not 4 or 5 or whose
version token is not the literal version string. -/
theorem claim6_filename_roundtrip (now : Int) (id : UUID) (tenant : List Char)
    (e : Encoding) (de : List Char) (slack : Int) (b : V2AppendBlock)
    (hb : newAppendBlock now id tenant e de slack = some b)
    (hT1 : tenant ≠ []) (hT2 : ':' ∉ tenant) :
    ParseFilename (fullFilename b) = some (id, tenant, VersionString, e, de) ∧
    (∀ name, ¬ ((splitOnChar ':' name).length = 4 ∨
        (splitOnChar ':' name).length = 5) → ParseFilename name = none) ∧
    (∀ name, (splitOnChar ':' name).getD 2 [] ≠ VersionString →
      ParseFilename name = none) := by
  refine ⟨?_, ParseFilename_none_of_bad_count, ParseFilename_none_of_bad_version⟩
  unfold newAppendBlock at hb
  by_cases hcond : ':' ∈ de ∨ de.length > maxDataEncodingLength
  · rw [if_pos hcond] at hb
    cases hb
  · rw [if_neg hcond] at hb
    have hde : ':' ∉ de := fun h => hcond (Or.inl h)
    have hbeq := Option.some.inj hb
    subst hbeq
    have hv0 : ¬ (VersionString = "v0".toList) := by decide
    by_cases hde0 : de = []
    · subst hde0
      have hname : fullFilename
          { meta := NewBlockMeta now tenant id VersionString e [],
            ingestionSlack := slack, entries := [], onceDone := false,
            readFile := none } =
          id.val ++ ':' :: tenant ++ ':' :: VersionString
            ++ ':' :: encodingToString e := by
        simp [fullFilename, NewBlockMeta, hv0]
        decide
      rw [hname]
      exact ParseFilename_of_splits4 _ id tenant (encodingToString e) e
        (splitOnChar_four id.val tenant VersionString (encodingToString e)
          (uuid_no_colon id) hT2 (by decide) (encodingToString_no_colon e))
        hT1 (parseEncoding_encodingToString e)
    · have hname : fullFilename
          { meta := NewBlockMeta now tenant id VersionString e de,
            ingestionSlack := slack, entries := [], onceDone := false,
            readFile := none } =
          id.val ++ ':' :: tenant ++ ':' :: VersionString
            ++ ':' :: encodingToString e ++ ':' :: de := by
        simp [fullFilename, NewBlockMeta, hv0, hde0]
        decide
      rw [hname]
      exact ParseFilename_of_splits5 _ id tenant (encodingToString e) de e
        (splitOnChar_five id.val tenant VersionString (encodingToString e) de
          (uuid_no_colon id) hT2 (by decide) (encodingToString_no_colon e) hde)
        hT1 (parseEncoding_encodingToString e)

/-- Claim C6 witness: the concrete block `blkFresh` (tenant "t", encoding
none, empty dataEncoding) round-trips through its filename. -/
theorem claim6_witness :
    ParseFilename (fullFilename blkFresh) =
      some (uuidZero, "t".toList, VersionString, Encoding.encNone, []) :=
  (claim6_filename_roundtrip 42 uuidZero ("t".toList) .encNone [] 0 blkFresh
    (by decide) (by decide) (by decide)).1

/-- Claim C8: with `max_local_traces_per_user = N` (nonzero) and one
healthy peer (so the per-instance limit is `ceil(N / 1) = N`), pushing N
distinct trace ids into a fresh instance succeeds for every push, and the
(N+1)-th push with a new distinct id returns LiveTracesExceeded. -/
theorem claim8_live_traces_limit (N : Nat) (hN : N ≠ 0) (ids : List Bytes)
    (hnd : ids.Nodup) (hlen : ids.length = N) (newId : Bytes)
    (hnew : newId ∉ ids) (now : Int) :
    ((pushSeq now 1 (freshInstance 1000 N 1) ids).2 =
      ids.map (fun _ => none)) ∧
    (pushBytes now (pushSeq now 1 (freshInstance 1000 N 1) ids).1 newId 1).2 =
      some .liveTracesExceeded := by
  obtain ⟨e1, e2, e3, e4, e5, e6⟩ :=
    pushSeq_distinct_fresh now 1 ids (freshInstance 1000 N 1) hnd
      (fun id _ => rfl) rfl
      (Or.inr (by show (1 : Nat) ≤ 1000; decide))
      (Or.inr (by
        show ([] : List LiveTrace).length + ids.length ≤ localTracesLimit N 1
        simp [localTracesLimit_one, hlen]))
  refine ⟨e1, ?_⟩
  have hfind : findLiveTrace
      (pushSeq now 1 (freshInstance 1000 N 1) ids).1.traces newId = none := by
    rw [e2, findLiveTrace_none_iff]
    intro t ht
    rcases List.mem_append.mp ht with h | h
    · simp [freshInstance] at h
    · rcases List.mem_map.mp h with ⟨id0, hid0, rfl⟩
      intro hEq
      have hEq' : id0 = newId := hEq
      exact hnew (by rw [← hEq']; exact hid0)
  have hnotmem :
      newId ∉ (pushSeq now 1 (freshInstance 1000 N 1) ids).1.tooLargeTraces := by
    rw [e3]
    exact List.not_mem_nil newId
  have hlencur :
      (pushSeq now 1 (freshInstance 1000 N 1) ids).1.traces.length = N := by
    rw [e2]
    simp [freshInstance, hlen]
  have hc : (pushSeq now 1 (freshInstance 1000 N 1) ids).1.maxLocalTraces ≠ 0 ∧
      localTracesLimit (pushSeq now 1 (freshInstance 1000 N 1) ids).1.maxLocalTraces
          (pushSeq now 1 (freshInstance 1000 N 1) ids).1.healthyPeers ≤
        (pushSeq now 1 (freshInstance 1000 N 1) ids).1.traces.length := by
    constructor
    · rw [e5]
      simp [freshInstance]
      exact hN
    · rw [e5, e6, hlencur]
      simp [freshInstance, localTracesLimit_one]
  unfold pushBytes
  rw [if_neg hnotmem]
  simp only [hfind]
  rw [if_pos hc]

/-- Claim C8 witness: N = 4, one healthy peer: four distinct pushes
succeed, the fifth distinct push returns LiveTracesExceeded. -/
theorem claim8_witness :
    (pushSeq 0 1 (freshInstance 1000 4 1) [[0], [1], [2], [3]]).2 =
      [none, none, none, none] ∧
    (pushBytes 0 (pushSeq 0 1 (freshInstance 1000 4 1) [[0], [1], [2], [3]]).1
      [4] 1).2 = some .liveTracesExceeded :=
  claim8_live_traces_limit 4 (by decide) [[0], [1], [2], [3]] (by decide) rfl
    [4] (by decide) 0

/-- Claim C9 counterexample: called with an already-cancelled context on a
block holding a record for the id, `FindTraceByID` proceeds and returns
the trace instead of the Cancelled error. -/
theorem claim9_counterexample :
    (FindTraceByID (some 0) { cancelled := true } blkC9 [1]).1 = .ok (some [7]) ∧
    (Except.ok (some ([7] : Bytes)) : Except FindError (Option Bytes)) ≠
      .error .cancelled := by
  exact ⟨rfl, by simp⟩

/-- Claim C9 (amended): the block-level `FindTraceByID` never consults the
caller's context — its result is the same for every context (it runs the
record search under a fresh background context), and it never returns the
Cancelled error. -/
theorem claim9_find_ignores_context (openRes : Option Nat) (ctx ctx' : Ctx)
    (a : V2AppendBlock) (id : Bytes) :
    FindTraceByID openRes ctx a id = FindTraceByID openRes ctx' a id ∧
    (FindTraceByID openRes ctx a id).1 ≠ .error .cancelled := by
  constructor
  · rfl
  · unfold FindTraceByID
    rcases hfe : file openRes a with ⟨fh, herr, a2⟩
    cases herr with
    | some e => simp
    | none =>
      by_cases hrec : RecordsForID a id = []
      · simp [hrec]
      · cases hr : RecordsForID a id with
        | nil => exact absurd hr hrec
        | cons r rs => simp [hr, finderFind]

/-- Claim C10: when the first lazy open of the read file fails, the error
is reported only to that first caller — the `sync.Once` has fired and the
error variable is fresh per call, so every later call to `file` returns a
`none` handle and a `none` error whatever opening would now return (no
retry, no re-report), and `FindTraceByID` on such a block (with no records
for the id) reports no error either. -/
theorem claim10_file_error_not_rereported :
    (∀ (a : V2AppendBlock), a.onceDone = false → a.readFile = none →
      file none a = (none, some .openFailed, { a with onceDone := true })) ∧
    (∀ (openRes : Option Nat) (a : V2AppendBlock), a.onceDone = true →
      a.readFile = none → file openRes a = (none, none, a)) ∧
    (∀ (openRes : Option Nat) (ctx : Ctx) (a : V2AppendBlock) (id : Bytes),
      a.onceDone = true → a.readFile = none → RecordsForID a id = [] →
      (FindTraceByID openRes ctx a id).1 = .ok none) := by
  refine ⟨?_, ?_, ?_⟩
  · intro a h1 h2
    simp [file, h1, h2]
  · intro openRes a h1 h2
    simp [file, h1, h2]
  · intro openRes ctx a id h1 h2 h3
    simp [FindTraceByID, file, h1, h2, h3]

/-- Claim C10 witness: on a fresh block whose open fails, the first call
reports the failure; the next call returns a nil handle and a nil error
even though opening would now succeed. -/
theorem claim10_witness :
    file none blkC10 = (none, some .openFailed, { blkC10 with onceDone := true }) ∧
    file (some 5) { blkC10 with onceDone := true } =
      (none, none, { blkC10 with onceDone := true }) :=
  ⟨claim10_file_error_not_rereported.1 blkC10 rfl rfl,
   claim10_file_error_not_rereported.2.1 (some 5) _ rfl rfl⟩

end Tempo
